import Mathlib

/-!
A shallow embedding of the `subspacer` state-transition core: the batch
builder (`program/src/builder.rs`), the wire reader (`program/src/lib.rs`)
and the guest verifier (`program/src/guest.rs`), together with theorems
checking the specification's claims about them.

Bytes are modelled as `Nat` (values below 256 in every real execution),
byte strings as `List Nat`.  The SHA-256 hash and the ECDSA signing
function live in external crates, so the embedding is parametric in a
hash function `HashFn` (assumed to produce 32-byte outputs where the
source relies on that) and a deterministic signer `SignFn`.  The
secp256k1 public-key and signature *parsing* checks of the guest are
modelled concretely from the curve's arithmetic, since claims depend on
when parsing fails.
-/

namespace Subspacer

/-- `u16::to_le_bytes` of a length value (the source casts `usize` to `u16`,
truncating to 16 bits). -/
def toLE16 (n : Nat) : List Nat := [n % 256, n / 256 % 256]

/-- Big-endian interpretation of a byte string as a natural number (used by
the model of scalar/field-element decoding in the `k256` crate). -/
def beNat (bs : List Nat) : Nat := bs.foldl (fun acc b => acc * 256 + b) 0

/-- Lexicographic comparison of byte strings; on strings of equal length this
is exactly Rust's `Ord` for `[u8; 32]`, used by `TransactionBuilder::sort`. -/
def cmpBytes : List Nat → List Nat → Ordering
  | [], [] => .eq
  | [], _ :: _ => .lt
  | _ :: _, [] => .gt
  | a :: as, b :: bs =>
    match compare a b with
    | .eq => cmpBytes as bs
    | o => o

/-! ### Model of the secp256k1 parsing done by the `k256` crate

Modelled from the spec: §4.H (signature suite) and §3 (Owner).  The actual
point/scalar parsing is implemented by the external `k256` crate, not by
code under `src/`; the model follows SEC1 point decompression for the
curve `y² = x³ + 7` over the field of `secpP` elements, and scalar range
checks modulo the group order `secpN`. -/

/-- The secp256k1 base field modulus. -/
def secpP : Nat := 2 ^ 256 - 2 ^ 32 - 977

/-- The secp256k1 group order. -/
def secpN : Nat := 2 ^ 256 - 432420386565659656852420866394968145599

/-- Square-and-multiply modular exponentiation, structural in a fuel
parameter so that the kernel can evaluate it. -/
def powModAux : Nat → Nat → Nat → Nat → Nat → Nat
  | 0, _, _, _, acc => acc
  | f + 1, m, b, e, acc =>
    if e = 0 then acc
    else powModAux f m (b * b % m) (e / 2) (if e % 2 = 1 then acc * b % m else acc)

/-- `powMod m b e = b ^ e % m` for exponents below `2 ^ 300`. -/
def powMod (m b e : Nat) : Nat := powModAux 300 m (b % m) e (1 % m)

/-- Euler-criterion test for quadratic residues modulo `secpP`. -/
def isSquareModP (a : Nat) : Bool :=
  a % secpP = 0 || powMod secpP a ((secpP - 1) / 2) = 1

/-- Whether a 32-byte x-coordinate, prefixed with the compression tag
`0x02`, parses as a secp256k1 point (`VerifyingKey::from_sec1_bytes`):
the coordinate must be a field element and `x³ + 7` must have a square
root. -/
def validOwnerX (value : List Nat) : Bool :=
  let x := beNat value
  x < secpP && isSquareModP ((x ^ 3 + 7) % secpP)

/-- Whether a byte string parses as a fixed-size ECDSA signature
(`Signature::from_slice`): exactly 64 bytes, and both big-endian halves
nonzero scalars below the group order. -/
def sigParseOk (bs : List Nat) : Bool :=
  bs.length = 64 &&
    (let r := beNat (bs.take 32)
     let s := beNat (bs.drop 32)
     0 < r && r < secpN && 0 < s && s < secpN)

/-! ### The transaction model and batch builder (`builder.rs`) -/

/-- A hash function from names to (32-byte) digests; the source uses
SHA-256 from the `sha2` crate via `builder.rs`'s `hash`. -/
abbrev HashFn := String → List Nat

/-- A deterministic ECDSA signer (`SigningKey::sign` with RFC-6979
nonces): message bytes to 64 signature bytes. -/
abbrev SignFn := List Nat → List Nat

/-- `builder.rs`: `Transaction { name, owner, witness, key }`, the last
field being the serde-skipped cached subspace key. -/
structure Transaction where
  name : String
  owner : List Nat
  witness : List Nat
  key : List Nat
deriving DecidableEq, Repr

/-- `Transaction::new`: empty witness, cached key `hash(name)`. -/
def Transaction.new (hash : HashFn) (name : String) (owner : List Nat) : Transaction :=
  { name := name, owner := owner, witness := [], key := hash name }

/-- `builder.rs`: `TransactionBuilder { version, transactions }`. -/
structure TransactionBuilder where
  version : Nat
  transactions : List Transaction
deriving DecidableEq, Repr

/-- `TransactionBuilder::new`. -/
def TransactionBuilder.new : TransactionBuilder :=
  { version := 0, transactions := [] }

/-- The builder's error cases (`BuilderError` carries only a message
string in the source; the model distinguishes the two construction
sites). -/
inductive BuilderError where
  | versionMismatch (v1 v2 : Nat)
  | duplicateName (name : String)
deriving DecidableEq, Repr

/-- `HEADER_SIZE = 1 + 32`. -/
def HEADER_SIZE : Nat := 1 + 32

/-- `TransactionBuilder::make_header`: version byte followed by the
32-byte space hash. -/
def makeHeader (hash : HashFn) (version : Nat) (space : String) : List Nat :=
  version :: hash space

/-- The 97-byte transfer-authorization pre-image signed in
`TransactionBuilder::add`: `header ‖ hash(name) ‖ owner`. -/
def transferMsg (hash : HashFn) (version : Nat) (space : String) (entry : Transaction) : List Nat :=
  makeHeader hash version space ++ (hash entry.name ++ entry.owner)

/-- `TransactionBuilder::add`.  Returned as `(error?, post-state)`: the
source takes `&mut self` and pushes the entry only after the duplicate
check, so the post-state on error is the unchanged builder.  With a
signer, `0x00` and the 64 signature bytes are *pushed onto* the entry's
existing witness vector. -/
def TransactionBuilder.add (self : TransactionBuilder) (hash : HashFn)
    (entry : Transaction) (key : Option (String × SignFn)) :
    Option BuilderError × TransactionBuilder :=
  if self.transactions.any (fun e => e.name == entry.name) then
    (some (.duplicateName entry.name), self)
  else
    let entry :=
      match key with
      | none => entry
      | some (space, sk) =>
        { entry with
          witness := entry.witness ++ 0x00 :: sk (transferMsg hash self.version space entry) }
    (none, { self with transactions := self.transactions ++ [entry] })

/-- The loop body of `TransactionBuilder::merge`: `self.add(entry, None)?`
over the other builder's transactions, stopping at the first error and
keeping the mutations made so far. -/
def mergeLoop (hash : HashFn) :
    TransactionBuilder → List Transaction → Option BuilderError × TransactionBuilder
  | self, [] => (none, self)
  | self, t :: ts =>
    match self.add hash t none with
    | (some e, s) => (some e, s)
    | (none, s) => mergeLoop hash s ts

/-- `TransactionBuilder::merge`: version check, then add-by-one. -/
def TransactionBuilder.merge (self : TransactionBuilder) (hash : HashFn)
    (other : TransactionBuilder) : Option BuilderError × TransactionBuilder :=
  if self.version ≠ other.version then
    (some (.versionMismatch self.version other.version), self)
  else
    mergeLoop hash self other.transactions

/-- The comparator of `TransactionBuilder::sort`: entries with non-empty
witness sort to the front, ties broken by ascending cached key. -/
def txCmp (a b : Transaction) : Ordering :=
  match a.witness.isEmpty, b.witness.isEmpty with
  | true, false => .gt
  | false, true => .lt
  | _, _ => cmpBytes a.key b.key

/-- The non-strict order induced by `txCmp` (Rust's `sort_by` places `a`
before `b` whenever the comparator does not answer `Greater`). -/
def txLe (a b : Transaction) : Prop := txCmp a b ≠ .gt

instance : DecidableRel txLe := fun a b =>
  inferInstanceAs (Decidable (txCmp a b ≠ .gt))

/-- `TransactionBuilder::sort`: refresh every cached key to `hash(name)`,
then stable-sort by `txCmp` (modelled by insertion sort, which computes
the same list as any stable sort under the same comparator). -/
def TransactionBuilder.sort (self : TransactionBuilder) (hash : HashFn) : TransactionBuilder :=
  { self with
    transactions :=
      List.insertionSort txLe
        (self.transactions.map fun t => { t with key := hash t.name }) }

/-- `TransactionBuilder::write_tx`: `len(u16 le) ‖ hash(name) ‖ owner ‖ witness`. -/
def writeTx (hash : HashFn) (tx : Transaction) : List Nat :=
  toLE16 (32 + 32 + tx.witness.length) ++ (hash tx.name ++ (tx.owner ++ tx.witness))

/-- `TransactionBuilder::build`: version byte, space hash, then the sorted
transactions in wire framing.  (The source returns `Ok` unconditionally.) -/
def TransactionBuilder.build (self : TransactionBuilder) (hash : HashFn)
    (space : String) : List Nat :=
  (self.version :: hash space) ++ ((self.sort hash).transactions.map (writeTx hash)).flatten

/-! ### The wire reader (`lib.rs`) -/

/-- `Entry`: the zero-copy view yielded by `BodyIterator`. -/
structure Entry where
  subspace_hash : List Nat
  owner : List Nat
  witness : List Nat
deriving DecidableEq, Repr

/-- `BodyIterator::next`, translated statement by statement: read the
2-byte little-endian length, stop if fewer than 2 bytes remain, the
length is below 64 or exceeds the remaining bytes; otherwise slice out
the frame and return the entry together with the iterator's remaining
buffer.  The source narrows `self.data` to the current frame
(`self.data = &self.data[..len]`) before advancing past `len` bytes of
it, so the remaining buffer is `frame.drop len` (which is empty). -/
def bodyNext : List Nat → Option (Entry × List Nat)
  | b0 :: b1 :: rest =>
    let len := b0 + 256 * b1
    if len > rest.length ∨ len < 64 then none
    else
      let frame := rest.take len
      some (⟨frame.take 32, (frame.drop 32).take 32, frame.drop 64⟩, frame.drop len)
  | _ => none

/-- The entries produced by repeatedly calling `bodyNext` until it
returns `none`; the fuel only serves structural termination and is
always sufficient at `length + 1` because each successful step strictly
shrinks the buffer. -/
def bodyEntries : Nat → List Nat → List Entry
  | 0, _ => []
  | fuel + 1, data =>
    match bodyNext data with
    | none => []
    | some (e, rest) => e :: bodyEntries fuel rest

/-- `TransactionReader::space_hash`: bytes 1..33 of the batch. -/
def TransactionReader.space_hash (data : List Nat) : List Nat :=
  (data.drop 1).take 32

/-- `TransactionReader::iter` collected into a list: the body starts
after the 33-byte header. -/
def TransactionReader.iterEntries (data : List Nat) : List Entry :=
  bodyEntries (data.length + 1) (data.drop HEADER_SIZE)

/-! ### The guest verifier (`guest.rs`) -/

/-- `GuestError`. -/
inductive GuestError where
  | expectedPublicKey
  | unalignedSubTree
  | invalidSignature
  | unsupportedWitness
  | witnessRequired
  | keyExists
  | incompleteSubTree
deriving DecidableEq, Repr

/-- `spacedb::subtree::VerifyError`, the error type of `SubTree::insert`. -/
inductive VerifyError where
  | keyExists
  | incompleteProof
deriving DecidableEq, Repr

/-- An ECDSA verifier: SEC1 public-key bytes, message bytes, signature
bytes.  The guest's `VerifyingKey::verify` (external `k256` crate) is a
parameter of the embedding; the claims under study do not depend on the
curve equation behind a successful verification. -/
abbrev VerifyFn := List Nat → List Nat → List Nat → Bool

/-- The 64-byte message `handle_transition` verifies the signature
against: `leaf_key ‖ tx.owner` (guest.rs lines 106–107). -/
def guestVerifyMsg (key : List Nat) (tx : Entry) : List Nat :=
  key ++ tx.owner

/-- `handle_transition`, translated in the source's evaluation order:
alignment, leaf-value length, public-key parse, witness presence,
witness tag, signature parse, signature verification; on success the
leaf value becomes `tx.owner`. -/
def handle_transition (verify : VerifyFn) (key value : List Nat) (tx : Entry) :
    Except GuestError (List Nat) :=
  if key ≠ tx.subspace_hash then .error .unalignedSubTree
  else if value.length ≠ 32 then .error .expectedPublicKey
  else if ¬ validOwnerX value then .error .expectedPublicKey
  else
    match tx.witness with
    | [] => .error .witnessRequired
    | w0 :: ws =>
      if w0 ≠ 0x00 then .error .unsupportedWitness
      else if ¬ sigParseOk ws then .error .invalidSignature
      else if verify (0x02 :: value) (guestVerifyMsg key tx) ws then .ok tx.owner
      else .error .invalidSignature

/-- `Commitment`. -/
structure Commitment where
  space : List Nat
  initial_root : List Nat
  final_root : List Nat
deriving DecidableEq, Repr

/-- The interface `handle_tx_set` uses from the (external, opaque)
`spacedb` subtree: its root, its included leaves in iteration order,
replacement of the leaf list after in-place mutation, and `insert` of a
key with the hash variant of a value. -/
structure SubTreeOps (σ : Type) where
  root : σ → List Nat
  leaves : σ → List (List Nat × List Nat)
  writeLeaves : σ → List (List Nat × List Nat) → σ
  insert : σ → List Nat → List Nat → Except VerifyError σ

/-- The zip loop of `handle_tx_set`: subtree leaves are consumed in
lockstep with batch entries under `handle_transition`; the loop ends
when either side is exhausted, returning the (mutated) leaves and the
batch entries not consumed. -/
def zipTransitions (verify : VerifyFn) :
    List (List Nat × List Nat) → List Entry →
    Except GuestError (List (List Nat × List Nat) × List Entry)
  | [], txs => .ok ([], txs)
  | ls, [] => .ok (ls, [])
  | (k, v) :: ls, tx :: txs =>
    match handle_transition verify k v tx with
    | .error e => .error e
    | .ok vNew =>
      match zipTransitions verify ls txs with
      | .error e => .error e
      | .ok (lsNew, rem) => .ok ((k, vNew) :: lsNew, rem)

/-- The registration loop of `handle_tx_set`: every remaining entry is
inserted, with `VerifyError` mapped onto `GuestError`. -/
def insertAll {σ : Type} (ops : SubTreeOps σ) : σ → List Entry → Except GuestError σ
  | st, [] => .ok st
  | st, r :: rs =>
    match ops.insert st r.subspace_hash r.owner with
    | .error .keyExists => .error .keyExists
    | .error .incompleteProof => .error .incompleteSubTree
    | .ok stNew => insertAll ops stNew rs

/-- `handle_tx_set` on an already-decoded subtree and the batch bytes:
record the initial root, apply the zipped transitions, insert the
remaining registrations, and commit `{space, initial_root, final_root}`. -/
def handle_tx_set {σ : Type} (ops : SubTreeOps σ) (verify : VerifyFn)
    (st : σ) (batch : List Nat) : Except GuestError Commitment :=
  let initial_root := ops.root st
  let space := TransactionReader.space_hash batch
  match zipTransitions verify (ops.leaves st) (TransactionReader.iterEntries batch) with
  | .error e => .error e
  | .ok (ls, rem) =>
    match insertAll ops (ops.writeLeaves st ls) rem with
    | .error e => .error e
    | .ok stFinal => .ok ⟨space, initial_root, ops.root stFinal⟩

/-! ### The JSON staging model (`builder.rs` serde derivations)

The hex/base64/JSON text codecs come from external crates
(`serde_json`, `serde_with`); the embedding models serialization at the
serde data-model level: which fields are emitted, the skip rules, and
the defaults applied on deserialization. -/

/-- The serialized fields of a `Transaction`: `name`, `owner` (hex) and
`witness` (base64), the latter omitted when empty
(`skip_serializing_if = "Vec::is_empty"`); the cached `key` is
`#[serde(skip)]`. -/
structure TransactionJson where
  name : String
  owner : List Nat
  witness : Option (List Nat)
deriving DecidableEq, Repr

/-- Serialization of one transaction. -/
def Transaction.toJson (t : Transaction) : TransactionJson :=
  { name := t.name, owner := t.owner
    witness := if t.witness.isEmpty then none else some t.witness }

/-- Deserialization of one transaction: a missing `witness` becomes the
empty vector (`#[serde(default)]`), and the skipped `key` field takes
the `[u8; 32]` default of 32 zero bytes. -/
def Transaction.fromJson (j : TransactionJson) : Transaction :=
  { name := j.name, owner := j.owner
    witness := j.witness.getD []
    key := List.replicate 32 0 }

/-- The serialized fields of a `TransactionBuilder`. -/
structure BuilderJson where
  version : Nat
  transactions : List TransactionJson
deriving DecidableEq, Repr

/-- `TransactionBuilder::to_json` at the serde data-model level. -/
def TransactionBuilder.toJson (b : TransactionBuilder) : BuilderJson :=
  { version := b.version, transactions := b.transactions.map Transaction.toJson }

/-- `TransactionBuilder::from_json`: deserialize, then reject any
duplicate name among the transactions. -/
def TransactionBuilder.from_json (bj : BuilderJson) : Option TransactionBuilder :=
  let s : TransactionBuilder :=
    { version := bj.version, transactions := bj.transactions.map Transaction.fromJson }
  if (s.transactions.map (fun t => t.name)).Nodup then some s else none

instance {ε α : Type} [DecidableEq ε] [DecidableEq α] : DecidableEq (Except ε α)
  | .error a, .error b =>
    if h : a = b then .isTrue (h ▸ rfl) else .isFalse (fun he => h (Except.error.inj he))
  | .error _, .ok _ => .isFalse (fun he => Except.noConfusion he)
  | .ok _, .error _ => .isFalse (fun he => Except.noConfusion he)
  | .ok a, .ok b =>
    if h : a = b then .isTrue (h ▸ rfl) else .isFalse (fun he => h (Except.ok.inj he))

/-! ### Helper lemmas about the reader -/

/-- Shape of a successful `bodyNext` step: the input had a length field
and at least `len ≥ 64` following bytes, and the entry is the framed
slices. -/
lemma bodyNext_some {data : List Nat} {e : Entry} {rest : List Nat}
    (h : bodyNext data = some (e, rest)) :
    ∃ b0 b1 tl, data = b0 :: b1 :: tl ∧
      b0 + 256 * b1 ≤ tl.length ∧ 64 ≤ b0 + 256 * b1 ∧
      e = ⟨(tl.take (b0 + 256 * b1)).take 32,
           ((tl.take (b0 + 256 * b1)).drop 32).take 32,
           (tl.take (b0 + 256 * b1)).drop 64⟩ ∧
      rest = (tl.take (b0 + 256 * b1)).drop (b0 + 256 * b1) := by
  match data with
  | [] => simp [bodyNext] at h
  | [b0] => simp [bodyNext] at h
  | b0 :: b1 :: tl =>
    refine ⟨b0, b1, tl, rfl, ?_⟩
    simp only [bodyNext] at h
    split at h
    · exact absurd h (by simp)
    · rename_i hcond
      push_neg at hcond
      obtain ⟨e_eq, rest_eq⟩ := Prod.mk.injEq .. ▸ Option.some.injEq .. ▸ h
      exact ⟨hcond.1, hcond.2, e_eq.symm, rest_eq.symm⟩

/-- Field lengths of an entry yielded by a successful `bodyNext` step. -/
lemma bodyNext_lengths {data : List Nat} {e : Entry} {rest : List Nat}
    (h : bodyNext data = some (e, rest)) :
    e.subspace_hash.length = 32 ∧ e.owner.length = 32 ∧
      ∃ b0 b1 tl, data = b0 :: b1 :: tl ∧ e.witness.length + 64 = b0 + 256 * b1 := by
  obtain ⟨b0, b1, tl, rfl, hle, h64, rfl, -⟩ := bodyNext_some h
  refine ⟨?_, ?_, b0, b1, tl, rfl, ?_⟩ <;>
    simp [List.length_take, List.length_drop] <;> omega

/-- Claim C6 (helper): the conditions under which `bodyNext` stops. -/
lemma bodyNext_none_short {data : List Nat} (h : data.length < 2) :
    bodyNext data = none := by
  match data with
  | [] => rfl
  | [b] => rfl
  | b0 :: b1 :: tl => simp at h; omega

/-! ### Claim theorems: wire reader -/

/-- Claim C6: `BodyIterator::next` returns end-of-stream (and never
panics — the model is a total function) when fewer than 2 bytes remain,
when the decoded little-endian length is below 64, or when it exceeds
the bytes remaining after the length field. -/
theorem c6_reader_stops_on_truncated_input :
    (∀ data : List Nat, data.length < 2 → bodyNext data = none) ∧
    (∀ b0 b1 : Nat, ∀ rest : List Nat, b0 + 256 * b1 < 64 →
      bodyNext (b0 :: b1 :: rest) = none) ∧
    (∀ b0 b1 : Nat, ∀ rest : List Nat, rest.length < b0 + 256 * b1 →
      bodyNext (b0 :: b1 :: rest) = none) := by
  refine ⟨fun _ h => bodyNext_none_short h, fun b0 b1 rest h => ?_, fun b0 b1 rest h => ?_⟩ <;>
  · simp only [bodyNext]
    rw [if_pos]
    omega

/-- Witness for C6 at concrete truncated inputs. -/
theorem c6_reader_stops_on_truncated_input_witness :
    bodyNext [7] = none ∧ bodyNext [63, 0] = none ∧
      bodyNext (64 :: 0 :: List.replicate 63 1) = none :=
  ⟨c6_reader_stops_on_truncated_input.1 [7] (by decide),
   c6_reader_stops_on_truncated_input.2.1 63 0 [] (by decide),
   c6_reader_stops_on_truncated_input.2.2 64 0 (List.replicate 63 1) (by simp)⟩

/-- Claim C10: every entry yielded by the body iterator has a 32-byte
subspace hash, a 32-byte owner and a witness of exactly `len − 64`
bytes; hence the iterator's internal assertion holds and the guest's
32-byte array conversions cannot fail. -/
theorem c10_entry_field_lengths :
    (∀ (data : List Nat) (e : Entry) (rest : List Nat),
      bodyNext data = some (e, rest) →
      e.subspace_hash.length = 32 ∧ e.owner.length = 32 ∧
        ∃ b0 b1 tl, data = b0 :: b1 :: tl ∧ e.witness.length + 64 = b0 + 256 * b1) ∧
    (∀ (fuel : Nat) (data : List Nat) (e : Entry), e ∈ bodyEntries fuel data →
      e.subspace_hash.length = 32 ∧ e.owner.length = 32) := by
  refine ⟨fun _ _ _ h => bodyNext_lengths h, fun fuel => ?_⟩
  induction fuel with
  | zero => intro data e h; simp [bodyEntries] at h
  | succ n ih =>
    intro data e h
    simp only [bodyEntries] at h
    match hn : bodyNext data with
    | none => rw [hn] at h; simp at h
    | some (e0, rest) =>
      rw [hn] at h
      rcases List.mem_cons.mp h with rfl | h
      · exact ⟨(bodyNext_lengths hn).1, (bodyNext_lengths hn).2.1⟩
      · exact ih rest e h

/-- Witness for C10 on a concrete single-frame body. -/
theorem c10_entry_field_lengths_witness :
    (⟨List.replicate 32 3, List.replicate 32 3, [9]⟩ : Entry).subspace_hash.length = 32 ∧
      (⟨List.replicate 32 3, List.replicate 32 3, [9]⟩ : Entry).owner.length = 32 := by
  have h : bodyNext (65 :: 0 :: (List.replicate 64 3 ++ [9])) =
      some (⟨List.replicate 32 3, List.replicate 32 3, [9]⟩, []) := by decide
  exact ⟨(c10_entry_field_lengths.1 _ _ _ h).1, (c10_entry_field_lengths.1 _ _ _ h).2.1⟩

/-! ### Claim theorems: signing pre-images (C2) -/

/-- Claim C2: with a signer, `add` signs the 97-byte buffer
`version ‖ hash(space) ‖ hash(name) ‖ owner` and stores the produced
signature, while `handle_transition` verifies against the 64-byte
buffer `leaf_key ‖ tx.owner`. -/
theorem c2_signed_message_mismatch (hash : HashFn) (space : String)
    (e : Transaction) (self : TransactionBuilder) (sk : SignFn)
    (hsp : (hash space).length = 32) (hn : (hash e.name).length = 32)
    (ho : e.owner.length = 32)
    (hfresh : self.transactions.any (fun t => t.name == e.name) = false) :
    self.add hash e (some (space, sk)) =
      (none, { self with transactions := self.transactions ++
        [{ e with witness :=
            e.witness ++ 0x00 :: sk (transferMsg hash self.version space e) }] }) ∧
    transferMsg hash self.version space e =
      self.version :: (hash space ++ (hash e.name ++ e.owner)) ∧
    (transferMsg hash self.version space e).length = 97 ∧
    (∀ (key : List Nat) (tx : Entry), key.length = 32 → tx.owner.length = 32 →
      guestVerifyMsg key tx = key ++ tx.owner ∧ (guestVerifyMsg key tx).length = 64) := by
  refine ⟨?_, rfl, ?_, fun key tx hk hko => ⟨rfl, ?_⟩⟩
  · simp [TransactionBuilder.add, hfresh]
  · simp [transferMsg, makeHeader, List.length_append, hsp, hn, ho]
  · simp [guestVerifyMsg, List.length_append, hk, hko]

/-- Witness for C2 at a concrete builder, transaction and signer. -/
theorem c2_signed_message_mismatch_witness :
    (transferMsg (fun _ => List.replicate 32 4) 0 "s"
      (Transaction.new (fun _ => List.replicate 32 4) "n" (List.replicate 32 1))).length = 97 ∧
    (guestVerifyMsg (List.replicate 32 4) ⟨List.replicate 32 4, List.replicate 32 1, []⟩).length = 64 := by
  have h := c2_signed_message_mismatch (fun _ => List.replicate 32 4) "s"
    (Transaction.new (fun _ => List.replicate 32 4) "n" (List.replicate 32 1))
    TransactionBuilder.new (fun _ => List.replicate 64 2)
    (by decide) (by decide) (by decide) (by decide)
  exact ⟨h.2.2.1, (h.2.2.2 (List.replicate 32 4)
    ⟨List.replicate 32 4, List.replicate 32 1, []⟩ (by decide) (by decide)).2⟩

/-! ### Claim theorems: `handle_transition` check order (C3) -/

set_option maxRecDepth 10000 in
/-- Counterexample to claim C3: for the all-zero 32-byte leaf value—
whose x-coordinate `0` gives `x³ + 7 = 7`, a quadratic non-residue, so
the compressed point fails to parse—paired with an *empty-witness*
transaction, `handle_transition` answers `ExpectedPublicKey`, not the
`WitnessRequired` the claim asserts: the public-key parse happens
before the witness checks. -/
theorem c3_counterexample_empty_witness_invalid_point :
    handle_transition (fun _ _ _ => true) (List.replicate 32 0) (List.replicate 32 0)
        ⟨List.replicate 32 0, List.replicate 32 3, []⟩ =
      .error .expectedPublicKey ∧
    Except.error GuestError.expectedPublicKey ≠
      (Except.error GuestError.witnessRequired : Except GuestError (List Nat)) := by
  refine ⟨by decide, fun h => absurd (Except.error.inj h) (by decide)⟩

/-- Claim C3 as amended: `handle_transition` checks, in order:
(1) alignment else `UnalignedSubTree`, (2) leaf length 32 else
`ExpectedPublicKey`, (3) `0x02 ‖ leaf_value` parses as a secp256k1
point else `ExpectedPublicKey`, (4) witness non-empty else
`WitnessRequired`, (5) witness tag `0x00` else `UnsupportedWitness`,
then signature parse and verification else `InvalidSignature`; on
success the new leaf value is `tx.owner`.  In particular an empty
witness with an unparseable 32-byte leaf value yields
`ExpectedPublicKey`. -/
theorem c3_amended_check_order (verify : VerifyFn) (key value : List Nat) (tx : Entry) :
    (key ≠ tx.subspace_hash →
      handle_transition verify key value tx = .error .unalignedSubTree) ∧
    (key = tx.subspace_hash → value.length ≠ 32 →
      handle_transition verify key value tx = .error .expectedPublicKey) ∧
    (key = tx.subspace_hash → value.length = 32 → validOwnerX value = false →
      handle_transition verify key value tx = .error .expectedPublicKey) ∧
    (key = tx.subspace_hash → value.length = 32 → validOwnerX value = true →
      tx.witness = [] →
      handle_transition verify key value tx = .error .witnessRequired) ∧
    (∀ w0 ws, key = tx.subspace_hash → value.length = 32 → validOwnerX value = true →
      tx.witness = w0 :: ws → w0 ≠ 0x00 →
      handle_transition verify key value tx = .error .unsupportedWitness) ∧
    (∀ ws, key = tx.subspace_hash → value.length = 32 → validOwnerX value = true →
      tx.witness = 0x00 :: ws → sigParseOk ws = false →
      handle_transition verify key value tx = .error .invalidSignature) ∧
    (∀ ws, key = tx.subspace_hash → value.length = 32 → validOwnerX value = true →
      tx.witness = 0x00 :: ws → sigParseOk ws = true →
      verify (0x02 :: value) (guestVerifyMsg key tx) ws = false →
      handle_transition verify key value tx = .error .invalidSignature) ∧
    (∀ ws, key = tx.subspace_hash → value.length = 32 → validOwnerX value = true →
      tx.witness = 0x00 :: ws → sigParseOk ws = true →
      verify (0x02 :: value) (guestVerifyMsg key tx) ws = true →
      handle_transition verify key value tx = .ok tx.owner) := by
  refine ⟨fun h => ?_, fun h1 h2 => ?_, fun h1 h2 h3 => ?_, fun h1 h2 h3 h4 => ?_,
    fun w0 ws h1 h2 h3 h4 h5 => ?_, fun ws h1 h2 h3 h4 h5 => ?_,
    fun ws h1 h2 h3 h4 h5 h6 => ?_, fun ws h1 h2 h3 h4 h5 h6 => ?_⟩
  any_goals subst h1
  all_goals simp [handle_transition, *]

/-- Witness for C3's amended order at concrete inputs (misaligned key). -/
theorem c3_amended_check_order_witness :
    handle_transition (fun _ _ _ => true) (List.replicate 32 1) (List.replicate 32 0)
        ⟨List.replicate 32 2, List.replicate 32 3, []⟩ =
      .error .unalignedSubTree :=
  (c3_amended_check_order (fun _ _ _ => true) (List.replicate 32 1) (List.replicate 32 0)
      ⟨List.replicate 32 2, List.replicate 32 3, []⟩).1 (by decide)

/-! ### Claim theorems: witness bytes written by `add` (C4) -/

/-- Counterexample to claim C4: `add` with a signer *appends*
`0x00 ‖ sig` to the entry's existing witness bytes instead of
overwriting them — starting from witness `[9]` the stored witness is
`9 ‖ 0x00 ‖ sig` of length 66, not the claimed `0x00 ‖ sig` of
length 65. -/
theorem c4_counterexample_witness_appended :
    ((TransactionBuilder.new.add (fun _ => List.replicate 32 1)
        { name := "n", owner := List.replicate 32 5, witness := [9],
          key := List.replicate 32 0 }
        (some ("s", fun _ => List.replicate 64 7))).2.transactions.map
      fun t => t.witness) = [9 :: 0 :: List.replicate 64 7] ∧
    (9 :: 0 :: List.replicate 64 7).length = 66 ∧
    9 :: 0 :: List.replicate 64 7 ≠ 0 :: List.replicate 64 7 := by
  refine ⟨by decide, by decide, by decide⟩

/-- Claim C4 as amended: after a successful `add` with a signer the
stored transaction's witness is the entry's *prior* witness bytes
followed by `0x00` and the 64-byte signature; when the prior witness
was empty this is exactly `0x00 ‖ sig`, of length 65. -/
theorem c4_amended_add_appends_witness (hash : HashFn) (self : TransactionBuilder)
    (e : Transaction) (space : String) (sk : SignFn)
    (hfresh : self.transactions.any (fun t => t.name == e.name) = false)
    (hsig : (sk (transferMsg hash self.version space e)).length = 64) :
    (self.add hash e (some (space, sk))).1 = none ∧
    (self.add hash e (some (space, sk))).2.transactions =
      self.transactions ++
        [{ e with witness :=
            e.witness ++ 0x00 :: sk (transferMsg hash self.version space e) }] ∧
    (e.witness ++ 0x00 :: sk (transferMsg hash self.version space e)).length =
      e.witness.length + 65 ∧
    (e.witness = [] →
      e.witness ++ 0x00 :: sk (transferMsg hash self.version space e) =
        0x00 :: sk (transferMsg hash self.version space e)) := by
  refine ⟨?_, ?_, ?_, fun hw => by simp [hw]⟩
  · simp [TransactionBuilder.add, hfresh]
  · simp [TransactionBuilder.add, hfresh]
  · simp [List.length_append, hsig]

/-- Witness for C4's amended statement at a concrete signer. -/
theorem c4_amended_add_appends_witness_witness :
    ((TransactionBuilder.new.add (fun _ => List.replicate 32 1)
        (Transaction.new (fun _ => List.replicate 32 1) "n" (List.replicate 32 5))
        (some ("s", fun _ => List.replicate 64 7))).1 = none) :=
  (c4_amended_add_appends_witness (fun _ => List.replicate 32 1) TransactionBuilder.new
    (Transaction.new (fun _ => List.replicate 32 1) "n" (List.replicate 32 5)) "s"
    (fun _ => List.replicate 64 7) (by decide) (by decide)).1

/-! ### Claim theorems: the empty batch (C8) -/

/-- The zip loop is the identity when the batch contributes no entries. -/
lemma zipTransitions_nil_right (verify : VerifyFn) (ls : List (List Nat × List Nat)) :
    zipTransitions verify ls [] = .ok (ls, []) := by
  cases ls <;> rfl

/-- Claim C8: a builder with no transactions builds a 33-byte batch —
the version byte followed by the space hash — and the guest run on that
batch over any subtree leaves the root unchanged: the commitment's
`initial_root` equals its `final_root`, and its `space` is the hash of
the space name. -/
theorem c8_empty_batch {σ : Type} (ops : SubTreeOps σ) (verify : VerifyFn) (st : σ)
    (hash : HashFn) (S : String) (hsp : (hash S).length = 32)
    (hwl : ops.writeLeaves st (ops.leaves st) = st) :
    (TransactionBuilder.new.build hash S).length = 33 ∧
    TransactionBuilder.new.build hash S = 0 :: hash S ∧
    handle_tx_set ops verify st (TransactionBuilder.new.build hash S) =
      .ok ⟨hash S, ops.root st, ops.root st⟩ := by
  have hbuild : TransactionBuilder.new.build hash S = 0 :: hash S := by
    simp [TransactionBuilder.build, TransactionBuilder.sort, TransactionBuilder.new,
      List.insertionSort]
  refine ⟨by rw [hbuild]; simp [hsp], hbuild, ?_⟩
  rw [hbuild]
  have hdrop : (0 :: hash S).drop HEADER_SIZE = [] := by
    apply List.drop_eq_nil_of_le
    simp [HEADER_SIZE, hsp]
  have hiter : TransactionReader.iterEntries (0 :: hash S) = [] := by
    rw [TransactionReader.iterEntries, hdrop]
    cases h : (0 :: hash S).length + 1 with
    | zero => rfl
    | succ n => rfl
  have hspace : TransactionReader.space_hash (0 :: hash S) = hash S := by
    simp only [TransactionReader.space_hash, List.drop_succ_cons, List.drop_zero]
    exact List.take_of_length_le (le_of_eq hsp)
  simp [handle_tx_set, hiter, hspace, zipTransitions_nil_right, hwl, insertAll]

/-- Witness for C8 with a concrete toy subtree model. -/
theorem c8_empty_batch_witness :
    (TransactionBuilder.new.build (fun _ => List.replicate 32 0) "a").length = 33 :=
  (c8_empty_batch
    (σ := List (List Nat × List Nat))
    ⟨fun l => [l.length], fun l => l, fun _ l => l, fun s k v => .ok ((k, v) :: s)⟩
    (fun _ _ _ => true) [(List.replicate 32 6, List.replicate 32 7)]
    (fun _ => List.replicate 32 0) "a" (by decide) rfl).1

/-! ### Claim theorems: JSON round-trip (C9) -/

/-- Round-tripping one transaction through the serde data model restores
every serialized field; the skipped cached key comes back as the
`[u8; 32]` default. -/
lemma fromJson_toJson (t : Transaction) :
    Transaction.fromJson (Transaction.toJson t) =
      { t with key := List.replicate 32 0 } := by
  unfold Transaction.toJson Transaction.fromJson
  by_cases h : t.witness.isEmpty
  · simp [h, List.isEmpty_iff.mp h]
  · simp [h]

/-- Claim C9: serializing a transaction (or a builder of transactions
with distinct names) to JSON and deserializing yields the same name,
owner and witness; only the non-serialized cached subspace key differs
(it is reset to the default). -/
theorem c9_json_round_trip (t : Transaction) (b : TransactionBuilder)
    (hnd : (b.transactions.map (fun x => x.name)).Nodup) :
    (Transaction.fromJson (Transaction.toJson t)).name = t.name ∧
    (Transaction.fromJson (Transaction.toJson t)).owner = t.owner ∧
    (Transaction.fromJson (Transaction.toJson t)).witness = t.witness ∧
    TransactionBuilder.from_json (TransactionBuilder.toJson b) =
      some { version := b.version,
             transactions :=
               b.transactions.map fun x => { x with key := List.replicate 32 0 } } := by
  refine ⟨by rw [fromJson_toJson], by rw [fromJson_toJson], by rw [fromJson_toJson], ?_⟩
  unfold TransactionBuilder.from_json TransactionBuilder.toJson
  simp only [List.map_map]
  have hmap : b.transactions.map (Transaction.fromJson ∘ Transaction.toJson) =
      b.transactions.map fun x => { x with key := List.replicate 32 0 } :=
    List.map_congr_left fun x _ => fromJson_toJson x
  rw [hmap]
  have hnames : ((b.transactions.map fun x =>
      ({ x with key := List.replicate 32 0 } : Transaction)).map fun t => t.name) =
      b.transactions.map fun x => x.name := by
    rw [List.map_map]; rfl
  rw [if_pos (hnames ▸ hnd)]

/-- Witness for C9 at a concrete transaction and builder. -/
theorem c9_json_round_trip_witness :
    (Transaction.fromJson (Transaction.toJson
      { name := "n", owner := List.replicate 32 5, witness := [0, 1],
        key := List.replicate 32 9 })).witness = [0, 1] :=
  (c9_json_round_trip
    { name := "n", owner := List.replicate 32 5, witness := [0, 1],
      key := List.replicate 32 9 }
    TransactionBuilder.new (by decide)).2.2.1

/-! ### Claim theorems: builder error atomicity (C5) -/

/-- A failing `add` leaves the builder untouched: the duplicate check
precedes the push. -/
lemma add_error_state (hash : HashFn) (self : TransactionBuilder)
    (entry : Transaction) (key : Option (String × SignFn))
    (h : (self.add hash entry key).1.isSome) :
    (self.add hash entry key).2 = self := by
  by_cases hc : (self.transactions.any fun e => e.name == entry.name) = true
  · simp [TransactionBuilder.add, hc]
  · simp [TransactionBuilder.add, hc] at h

/-- A failing `mergeLoop` run splits the merged-in transactions into a
successfully processed prefix and an unprocessed remainder, and its
final state is exactly the state after the successful prefix. -/
lemma mergeLoop_error (hash : HashFn) :
    ∀ (ts : List Transaction) (self : TransactionBuilder),
      (mergeLoop hash self ts).1.isSome →
      ∃ pre suf, ts = pre ++ suf ∧ suf ≠ [] ∧
        mergeLoop hash self pre = (none, (mergeLoop hash self ts).2) := by
  intro ts
  induction ts with
  | nil => intro self h; simp [mergeLoop] at h
  | cons t ts ih =>
    intro self h
    rcases hadd : self.add hash t none with ⟨err, s⟩
    cases err with
    | some e =>
      refine ⟨[], t :: ts, rfl, by simp, ?_⟩
      have hs : s = self := by
        have := add_error_state hash self t none (by rw [hadd]; simp)
        rw [hadd] at this; exact this
      simp [mergeLoop, hadd, hs]
    | none =>
      have hred : mergeLoop hash self (t :: ts) = mergeLoop hash s ts := by
        simp [mergeLoop, hadd]
      rw [hred] at h ⊢
      obtain ⟨pre, suf, rfl, hsuf, hpre⟩ := ih s h
      refine ⟨t :: pre, suf, rfl, hsuf, ?_⟩
      simp [mergeLoop, hadd, hpre]

/-- Claim C5 as amended: a failing `add` leaves the builder's
transaction list unchanged, and so does a `merge` rejected for a
version mismatch; but a `merge` that fails on a duplicate name keeps
the transactions of the merged-in builder that were processed before
the failing one — the receiving list is not restored. -/
theorem c5_amended_error_atomicity :
    (∀ (hash : HashFn) (self : TransactionBuilder) (entry : Transaction)
        (key : Option (String × SignFn)),
      (self.add hash entry key).1.isSome → (self.add hash entry key).2 = self) ∧
    (∀ (hash : HashFn) (self other : TransactionBuilder),
      self.version ≠ other.version →
      self.merge hash other =
        (some (.versionMismatch self.version other.version), self)) ∧
    (∀ (hash : HashFn) (self other : TransactionBuilder),
      self.version = other.version →
      (self.merge hash other).1.isSome →
      ∃ pre suf, other.transactions = pre ++ suf ∧ suf ≠ [] ∧
        mergeLoop hash self pre = (none, (self.merge hash other).2)) := by
  refine ⟨add_error_state, fun hash self other h => by simp [TransactionBuilder.merge, h],
    fun hash self other hv h => ?_⟩
  have hm : self.merge hash other = mergeLoop hash self other.transactions := by
    simp [TransactionBuilder.merge, hv]
  rw [hm] at h ⊢
  exact mergeLoop_error hash other.transactions self h

/-- Witness for C5's amended statement: a duplicate `add` at concrete
inputs leaves the builder unchanged. -/
theorem c5_amended_error_atomicity_witness :
    (({ version := 0,
        transactions := [Transaction.new (fun _ => List.replicate 32 0) "x"
          (List.replicate 32 0)] } : TransactionBuilder).add
      (fun _ => List.replicate 32 0)
      (Transaction.new (fun _ => List.replicate 32 0) "x" (List.replicate 32 1)) none).2 =
      { version := 0,
        transactions := [Transaction.new (fun _ => List.replicate 32 0) "x"
          (List.replicate 32 0)] } :=
  c5_amended_error_atomicity.1 (fun _ => List.replicate 32 0)
    { version := 0,
      transactions := [Transaction.new (fun _ => List.replicate 32 0) "x"
        (List.replicate 32 0)] }
    (Transaction.new (fun _ => List.replicate 32 0) "x" (List.replicate 32 1)) none
    (by decide)

/-- Counterexample to claim C5: a `merge` that fails on a duplicate name
does *not* leave the receiving builder's transaction list as it was —
the merged-in transactions preceding the duplicate stay.  Here the
receiving builder holds `"x"`, the merged-in builder holds `"y"` then
`"x"`; the merge errors with `DuplicateName "x"` yet the receiver ends
with `["x", "y"]`. -/
theorem c5_counterexample_merge_not_atomic :
    (({ version := 0,
        transactions := [Transaction.new (fun _ => List.replicate 32 0) "x"
          (List.replicate 32 0)] } : TransactionBuilder).merge
      (fun _ => List.replicate 32 0)
      { version := 0,
        transactions :=
          [Transaction.new (fun _ => List.replicate 32 0) "y" (List.replicate 32 0),
           Transaction.new (fun _ => List.replicate 32 0) "x" (List.replicate 32 0)] }).1 =
      some (.duplicateName "x") ∧
    (({ version := 0,
        transactions := [Transaction.new (fun _ => List.replicate 32 0) "x"
          (List.replicate 32 0)] } : TransactionBuilder).merge
      (fun _ => List.replicate 32 0)
      { version := 0,
        transactions :=
          [Transaction.new (fun _ => List.replicate 32 0) "y" (List.replicate 32 0),
           Transaction.new (fun _ => List.replicate 32 0) "x" (List.replicate 32 0)] }).2.transactions.map
        (fun t => t.name) = ["x", "y"] ∧
    ["x", "y"] ≠ ["x"] := by
  refine ⟨by decide, by decide, by decide⟩

/-! ### Claim theorems: reading back a built batch (C1)

`BodyIterator::next` narrows its buffer to the current frame
(`self.data = &self.data[..len]`) and then drops `len` bytes *of that
frame* (`self.data = &self.data[len..]`), so after the first yielded
entry the buffer is empty and iteration ends: the reader returns at
most one entry per batch, not every transaction. -/

/-- A concrete injective hash for exercising C1. -/
def c1hash : HashFn := fun s => s.length % 256 :: List.replicate 31 0

/-- The builder obtained from two successful `add` calls with distinct
names `"a"` and `"bb"` (both registrations). -/
def c1builder : TransactionBuilder :=
  ((TransactionBuilder.new.add c1hash
      (Transaction.new c1hash "a" (List.replicate 32 0)) none).2.add c1hash
    (Transaction.new c1hash "bb" (List.replicate 32 0)) none).2

set_option maxRecDepth 20000 in
/-- Claim C1 fails on the code: the two-transaction batch below
serializes both transactions, yet iterating the reader over the built
bytes yields exactly one entry — not every transaction of the builder,
and in particular not the canonically sorted entry sequence. -/
theorem c1_code_bug_reader_yields_one_entry :
    (TransactionBuilder.new.add c1hash
        (Transaction.new c1hash "a" (List.replicate 32 0)) none).1 = none ∧
    ((TransactionBuilder.new.add c1hash
        (Transaction.new c1hash "a" (List.replicate 32 0)) none).2.add c1hash
      (Transaction.new c1hash "bb" (List.replicate 32 0)) none).1 = none ∧
    c1builder.transactions.length = 2 ∧
    (c1builder.build c1hash "s").length = 33 + 66 + 66 ∧
    (TransactionReader.iterEntries (c1builder.build c1hash "s")).length = 1 ∧
    TransactionReader.iterEntries (c1builder.build c1hash "s") ≠
      (c1builder.sort c1hash).transactions.map
        (fun t => ⟨c1hash t.name, t.owner, t.witness⟩) := by
  refine ⟨by decide, by decide, by decide, by decide, by decide, by decide⟩

/-! ### Helper lemmas: the canonical-sort comparator -/

/-- Swapping the arguments of `cmpBytes` swaps the answer. -/
lemma cmpBytes_swap : ∀ x y : List Nat, cmpBytes y x = (cmpBytes x y).swap
  | [], [] => rfl
  | [], _ :: _ => rfl
  | _ :: _, [] => rfl
  | a :: as, b :: bs => by
    rcases Nat.lt_trichotomy a b with h | h | h
    · rw [cmpBytes, cmpBytes, Nat.compare_eq_lt.mpr h, Nat.compare_eq_gt.mpr h]
      rfl
    · subst h
      rw [cmpBytes, cmpBytes, Nat.compare_eq_eq.mpr rfl]
      exact cmpBytes_swap as bs
    · rw [cmpBytes, cmpBytes, Nat.compare_eq_gt.mpr h, Nat.compare_eq_lt.mpr h]
      rfl

/-- `cmpBytes` answers `eq` exactly on equal lists. -/
lemma cmpBytes_eq_iff : ∀ x y : List Nat, cmpBytes x y = .eq ↔ x = y
  | [], [] => by simp [cmpBytes]
  | [], _ :: _ => by simp [cmpBytes]
  | _ :: _, [] => by simp [cmpBytes]
  | a :: as, b :: bs => by
    rcases Nat.lt_trichotomy a b with h | h | h
    · rw [cmpBytes, Nat.compare_eq_lt.mpr h]
      simp
      intro he
      omega
    · subst h
      rw [cmpBytes, Nat.compare_eq_eq.mpr rfl]
      simp [cmpBytes_eq_iff as bs]
    · rw [cmpBytes, Nat.compare_eq_gt.mpr h]
      simp
      intro he
      omega

/-- Transitivity of the non-strict byte-string order. -/
lemma cmpBytes_le_trans :
    ∀ x y z : List Nat, cmpBytes x y ≠ .gt → cmpBytes y z ≠ .gt → cmpBytes x z ≠ .gt
  | [], _, [], _, _ => by simp [cmpBytes]
  | [], _, _ :: _, _, _ => by simp [cmpBytes]
  | _ :: _, [], _, h1, _ => absurd rfl (by rwa [cmpBytes] at h1)
  | _ :: _, _ :: _, [], _, h2 => absurd rfl (by rwa [cmpBytes] at h2)
  | a :: as, b :: bs, c :: cs, h1, h2 => by
    rw [cmpBytes] at h1 h2 ⊢
    rcases Nat.lt_trichotomy a b with hab | hab | hab
    · rcases Nat.lt_trichotomy b c with hbc | hbc | hbc
      · rw [Nat.compare_eq_lt.mpr (hab.trans hbc)]; simp
      · subst hbc; rw [Nat.compare_eq_lt.mpr hab]; simp
      · rw [Nat.compare_eq_gt.mpr hbc] at h2; exact absurd rfl h2
    · subst hab
      rcases Nat.lt_trichotomy a c with hac | hac | hac
      · rw [Nat.compare_eq_lt.mpr hac]; simp
      · subst hac
        rw [Nat.compare_eq_eq.mpr rfl] at h1 h2 ⊢
        exact cmpBytes_le_trans as bs cs h1 h2
      · rw [Nat.compare_eq_gt.mpr hac] at h2; exact absurd rfl h2
    · rw [Nat.compare_eq_gt.mpr hab] at h1; exact absurd rfl h1

/-- Swapping the arguments of `txCmp` swaps the answer. -/
lemma txCmp_swap (a b : Transaction) : txCmp b a = (txCmp a b).swap := by
  unfold txCmp
  cases ha : a.witness.isEmpty <;> cases hb : b.witness.isEmpty <;>
    first
      | rfl
      | exact cmpBytes_swap a.key b.key

/-- `txCmp` answering `eq` forces equal cached keys. -/
lemma txCmp_eq_key (a b : Transaction) (h : txCmp a b = .eq) : a.key = b.key := by
  unfold txCmp at h
  cases ha : a.witness.isEmpty <;> cases hb : b.witness.isEmpty <;> rw [ha, hb] at h <;>
    first
      | exact (cmpBytes_eq_iff a.key b.key).mp h
      | exact Ordering.noConfusion h

/-- The sort order is total. -/
lemma txLe_total (a b : Transaction) : txLe a b ∨ txLe b a := by
  unfold txLe
  cases h : txCmp a b with
  | lt => exact Or.inl (by simp [h])
  | eq => exact Or.inl (by simp [h])
  | gt =>
    refine Or.inr ?_
    rw [txCmp_swap a b, h]
    decide

/-- The sort order is transitive. -/
lemma txLe_trans {a b c : Transaction} (h1 : txLe a b) (h2 : txLe b c) : txLe a c := by
  unfold txLe txCmp at h1 h2 ⊢
  cases ha : a.witness.isEmpty <;> cases hb : b.witness.isEmpty <;>
    cases hc : c.witness.isEmpty <;> rw [ha, hb] at h1 <;> rw [hb, hc] at h2 <;>
    first
      | exact cmpBytes_le_trans _ _ _ h1 h2
      | exact absurd rfl h1
      | exact absurd rfl h2
      | exact fun h => Ordering.noConfusion h

instance : IsTotal Transaction txLe := ⟨txLe_total⟩

instance : IsTrans Transaction txLe := ⟨fun _ _ _ => txLe_trans⟩

/-- Two sorted lists that are permutations of each other are equal,
provided the order is antisymmetric on the elements involved. -/
lemma sorted_perm_eq {α : Type} {r : α → α → Prop} :
    ∀ {l₁ l₂ : List α}, (∀ a ∈ l₁, ∀ b ∈ l₁, r a b → r b a → a = b) →
      List.Perm l₁ l₂ → List.Sorted r l₁ → List.Sorted r l₂ → l₁ = l₂
  | [], l₂, _, hp, _, _ => hp.nil_eq
  | a :: t₁, [], _, hp, _, _ => by simpa using hp.length_eq
  | a :: t₁, b :: t₂, anti, hp, h₁, h₂ => by
    have hab : a = b := by
      by_cases h : a = b
      · exact h
      · have hbl : b ∈ a :: t₁ := hp.symm.subset (List.mem_cons_self b t₂)
        have hal : a ∈ b :: t₂ := hp.subset (List.mem_cons_self a t₁)
        have hbt : b ∈ t₁ := by
          rcases List.mem_cons.mp hbl with h' | h'
          · exact absurd h'.symm h
          · exact h'
        have hat : a ∈ t₂ := by
          rcases List.mem_cons.mp hal with h' | h'
          · exact absurd h' h
          · exact h'
        exact anti a (List.mem_cons_self a t₁) b hbl
          (List.rel_of_sorted_cons h₁ b hbt) (List.rel_of_sorted_cons h₂ a hat)
    subst hab
    have htail : t₁ = t₂ :=
      sorted_perm_eq
        (fun x hx y hy => anti x (List.mem_cons_of_mem a hx) y (List.mem_cons_of_mem a hy))
        hp.cons_inv (List.sorted_cons.mp h₁).2 (List.sorted_cons.mp h₂).2
    rw [htail]

/-! ### Claim theorems: order-independence of `build` (C7) -/

/-- One `add` call: the transaction handed over and the signer argument. -/
def AddCall : Type := Transaction × Option (String × SignFn)

/-- The transaction actually stored by a successful `add`: unchanged
without a signer, otherwise with `0x00 ‖ sig` appended to its witness. -/
def processCall (hash : HashFn) (version : Nat) : AddCall → Transaction
  | (e, none) => e
  | (e, some (space, sk)) =>
    { e with witness := e.witness ++ 0x00 :: sk (transferMsg hash version space e) }

/-- A sequence of `add` calls applied left to right, stopping at the
first error (as a caller propagating `?` would). -/
def addAll (hash : HashFn) :
    TransactionBuilder → List AddCall → Option BuilderError × TransactionBuilder
  | self, [] => (none, self)
  | self, c :: cs =>
    match self.add hash c.1 c.2 with
    | (some e, s) => (some e, s)
    | (none, s) => addAll hash s cs

/-- `processCall` never changes the transaction's name. -/
lemma processCall_name (hash : HashFn) (version : Nat) (c : AddCall) :
    (processCall hash version c).name = c.1.name := by
  rcases c with ⟨e, _ | ⟨space, sk⟩⟩ <;> rfl

/-- A fresh-named `add` succeeds and appends the processed transaction. -/
lemma add_ok (hash : HashFn) (self : TransactionBuilder) (e : Transaction)
    (k : Option (String × SignFn)) (hfresh : ∀ t ∈ self.transactions, t.name ≠ e.name) :
    self.add hash e k =
      (none, { self with transactions :=
        self.transactions ++ [processCall hash self.version (e, k)] }) := by
  have hany : (self.transactions.any fun t => t.name == e.name) = false := by
    simp only [List.any_eq_false, beq_iff_eq]
    exact hfresh
  rcases k with _ | ⟨space, sk⟩ <;> simp [TransactionBuilder.add, hany, processCall]

/-- A sequence of `add` calls with pairwise-distinct names, all fresh
for the starting builder, succeeds and appends exactly the processed
transactions in call order. -/
lemma addAll_ok (hash : HashFn) :
    ∀ (calls : List AddCall) (self : TransactionBuilder),
      (∀ c ∈ calls, ∀ t ∈ self.transactions, t.name ≠ c.1.name) →
      (calls.map fun c => c.1.name).Nodup →
      addAll hash self calls =
        (none, { self with transactions :=
          self.transactions ++ calls.map (processCall hash self.version) }) := by
  intro calls
  induction calls with
  | nil => intro self _ _; simp [addAll]
  | cons c cs ih =>
    intro self hfresh hnd
    have hadd := add_ok hash self c.1 c.2 (hfresh c (List.mem_cons_self c cs))
    have hc2 : (c.1, c.2) = c := rfl
    rw [hc2] at hadd
    have hstep : addAll hash self (c :: cs) =
        addAll hash { self with transactions :=
          self.transactions ++ [processCall hash self.version c] } cs := by
      simp [addAll, hadd]
    rw [hstep]
    have hnd' : c.1.name ∉ (cs.map fun x => x.1.name) ∧
        (cs.map fun x => x.1.name).Nodup := by
      rw [List.map_cons, List.nodup_cons] at hnd
      exact hnd
    have hfresh' : ∀ d ∈ cs,
        ∀ t ∈ ({ self with transactions :=
          self.transactions ++ [processCall hash self.version c] } :
            TransactionBuilder).transactions, t.name ≠ d.1.name := by
      intro d hd t ht
      rcases List.mem_append.mp ht with ht | ht
      · exact hfresh d (List.mem_cons_of_mem c hd) t ht
      · rcases List.mem_singleton.mp ht with rfl
        rw [processCall_name]
        intro he
        exact hnd'.1 (by rw [he]; exact List.mem_map_of_mem _ hd)
    rw [ih _ hfresh' hnd'.2]
    simp [List.append_assoc]

/-- Claim C7: two builders constructed from the same multiset of `add`
calls — same transactions and signer arguments, pairwise-distinct
names whose hashes do not collide, applied in different orders — both
succeed and `build` byte-identical output for every space. -/
theorem c7_build_order_independent (hash : HashFn) (S : String)
    (calls1 calls2 : List AddCall) (hp : List.Perm calls1 calls2)
    (hnd : (calls1.map fun c => c.1.name).Nodup)
    (hinj : ∀ c ∈ calls1, ∀ d ∈ calls1,
      hash c.1.name = hash d.1.name → c.1.name = d.1.name) :
    (addAll hash TransactionBuilder.new calls1).1 = none ∧
    (addAll hash TransactionBuilder.new calls2).1 = none ∧
    (addAll hash TransactionBuilder.new calls1).2.build hash S =
      (addAll hash TransactionBuilder.new calls2).2.build hash S := by
  have hnd2 : (calls2.map fun c => c.1.name).Nodup := ((hp.map _).nodup_iff).mp hnd
  have h1 := addAll_ok hash calls1 TransactionBuilder.new
    (by intro c _ t ht; simp [TransactionBuilder.new] at ht) hnd
  have h2 := addAll_ok hash calls2 TransactionBuilder.new
    (by intro c _ t ht; simp [TransactionBuilder.new] at ht) hnd2
  refine ⟨by rw [h1], by rw [h2], ?_⟩
  rw [h1, h2]
  unfold TransactionBuilder.build TransactionBuilder.sort
  simp only [TransactionBuilder.new, List.nil_append, List.map_map]
  have key_eq : List.insertionSort txLe
      (calls1.map ((fun t => { t with key := hash t.name }) ∘ processCall hash 0)) =
    List.insertionSort txLe
      (calls2.map ((fun t => { t with key := hash t.name }) ∘ processCall hash 0)) := by
    set f : AddCall → Transaction :=
      (fun t => { t with key := hash t.name }) ∘ processCall hash 0 with hf
    have hfname : ∀ c : AddCall, (f c).name = c.1.name := by
      intro c
      simp [hf, Function.comp, processCall_name]
    have hfkey : ∀ c : AddCall, (f c).key = hash c.1.name := by
      intro c
      simp [hf, Function.comp]
      rw [processCall_name]
    have hperm : List.Perm (List.insertionSort txLe (calls1.map f))
        (List.insertionSort txLe (calls2.map f)) :=
      (List.perm_insertionSort txLe (calls1.map f)).trans
        ((hp.map f).trans (List.perm_insertionSort txLe (calls2.map f)).symm)
    refine sorted_perm_eq ?_ hperm
      (List.sorted_insertionSort txLe (calls1.map f))
      (List.sorted_insertionSort txLe (calls2.map f))
    intro a ha b hb hab hba
    rw [List.mem_insertionSort] at ha hb
    obtain ⟨c, hc, rfl⟩ := List.mem_map.mp ha
    obtain ⟨d, hd, rfl⟩ := List.mem_map.mp hb
    have hkeys : (f c).key = (f d).key := by
      apply txCmp_eq_key
      have hs := txCmp_swap (f c) (f d)
      unfold txLe at hab hba
      rw [hs] at hba
      cases ho : txCmp (f c) (f d)
      · rw [ho] at hba; exact absurd rfl hba
      · rfl
      · exact absurd ho hab
    have hnames : c.1.name = d.1.name := by
      apply hinj c hc d hd
      rw [← hfkey c, ← hfkey d, hkeys]
    have : c = d := List.inj_on_of_nodup_map hnd hc hd hnames
    rw [this]
  rw [key_eq]

/-- Witness for C7: two registrations added in both orders yield the
same built bytes. -/
theorem c7_build_order_independent_witness :
    (addAll (fun s => (if s = "a" then 1 else 2) :: List.replicate 31 0)
      TransactionBuilder.new
      [(Transaction.new (fun s => (if s = "a" then 1 else 2) :: List.replicate 31 0) "a"
          (List.replicate 32 0), none),
       (Transaction.new (fun s => (if s = "a" then 1 else 2) :: List.replicate 31 0) "b"
          (List.replicate 32 0), none)]).1 = none ∧
    (addAll (fun s => (if s = "a" then 1 else 2) :: List.replicate 31 0)
      TransactionBuilder.new
      [(Transaction.new (fun s => (if s = "a" then 1 else 2) :: List.replicate 31 0) "b"
          (List.replicate 32 0), none),
       (Transaction.new (fun s => (if s = "a" then 1 else 2) :: List.replicate 31 0) "a"
          (List.replicate 32 0), none)]).1 = none := by
  have h := c7_build_order_independent
    (fun s => (if s = "a" then 1 else 2) :: List.replicate 31 0) "sp"
    [(Transaction.new (fun s => (if s = "a" then 1 else 2) :: List.replicate 31 0) "a"
        (List.replicate 32 0), none),
     (Transaction.new (fun s => (if s = "a" then 1 else 2) :: List.replicate 31 0) "b"
        (List.replicate 32 0), none)]
    [(Transaction.new (fun s => (if s = "a" then 1 else 2) :: List.replicate 31 0) "b"
        (List.replicate 32 0), none),
     (Transaction.new (fun s => (if s = "a" then 1 else 2) :: List.replicate 31 0) "a"
        (List.replicate 32 0), none)]
    (List.Perm.swap _ _ _)
    (by decide)
    (by
      intro c hc d hd hh
      simp only [List.mem_cons, List.not_mem_nil, or_false] at hc hd
      rcases hc with rfl | rfl <;> rcases hd with rfl | rfl <;>
        first
          | rfl
          | exact absurd hh (by decide))
  exact ⟨h.1, h.2.1⟩

end Subspacer
